import Mathlib

/-!
# Verification of the streaming-transform contract and Unicode normalization engine

Shallow embedding of the normalization core of the golang/text repository:
the `Form.Transform` / `Form.transform` streaming entry points, the
`quickSpan` scanner, the `Form.Bytes`/`Form.String`/`Form.Append` one-shot
entry points with their `doAppend`/`decomposeSegment` drivers, and the
`transform.Reader` stream adapter.

Bytes are modelled as `List Nat` (each element one byte value); machine
integers are `Nat` with explicit bounds where relevant.  The per-code-point
Unicode property tables (the "Property Oracle") are out of scope of the
repository core (generated data); following the spec, the engine is embedded
parametrically in the oracle (`Info`), and a small synthetic oracle
(`synthInfo`) covering the code points used by the spec's concrete examples
instantiates it for evaluation.
-/

namespace NormEmbed

/-- The two recoverable streaming errors of the transform contract
(`transform.ErrShortDst` / `transform.ErrShortSrc`); `none` below is the
nil error (success). -/
inductive TErr where
  | shortDst
  | shortSrc
deriving DecidableEq

/-- Per-code-point property record returned by the Property Oracle
(`Properties` in the source): `size` is the byte length of the encoded rune
(0 for an incomplete/invalid unit), `ccc` the canonical combining class,
`yesC`/`yesD` the quick-check Yes flags for the composing/decomposing
forms, `combBack`/`combFwd` the combines-backward/forward flags, and
`decompD`/`decompK` the canonical/compatibility decompositions. -/
structure Props where
  size : Nat
  ccc : Nat
  yesC : Bool
  yesD : Bool
  combBack : Bool
  combFwd : Bool
  decompD : Option (List Nat)
  decompK : Option (List Nat)
deriving DecidableEq

/-- A Property Oracle: given the source bytes and a byte offset, the
property record of the rune starting there. -/
def Info : Type := List Nat → Nat → Props

/-- A normalization form's configuration (`formInfo`): whether it composes
and whether it uses compatibility decomposition. -/
structure FormCfg where
  composing : Bool
  compat : Bool
deriving DecidableEq

/-- The four normalization forms (`Form`). -/
inductive Form where
  | NFC
  | NFD
  | NFKC
  | NFKD
deriving DecidableEq

/-- `formTable`: the configuration of each form. -/
def formTable : Form → FormCfg
  | .NFC => ⟨true, false⟩
  | .NFD => ⟨false, false⟩
  | .NFKC => ⟨true, true⟩
  | .NFKD => ⟨false, true⟩

/-- `maxCombiningChars`: the bounded-reorder cutoff (30). -/
def maxCombiningChars : Nat := 30

/-! ## Synthetic Property Oracle

The property tables are generated data outside the repository core; the
spec treats them as an opaque read-only oracle and notes that a small
synthetic oracle may stand in for them.  The oracle below covers the code
points of the spec's concrete examples: ASCII starters (with `a`
combining forward), U+0300 COMBINING GRAVE ACCENT (ccc 230, quick-check
Maybe under NFC), U+0323 COMBINING DOT BELOW (ccc 220, quick-check Maybe
under NFC), U+00E0 `à` (the composition of `a` + U+0300, not quick-check
Yes under NFD), and U+00F8 `ø` (an inert non-ASCII starter). -/

/-- Property record for an invalid or incomplete unit (`size = 0`). -/
def inertProps : Props := ⟨0, 0, true, true, false, false, none, none⟩

/-- Property record for an ASCII byte: a one-byte starter, quick-check Yes
for every form; `a` combines forward (`a` + U+0300 → `à`). -/
def asciiProps (c : Nat) : Props :=
  ⟨1, 0, true, true, false, decide (c = 0x61), none, none⟩

/-- U+0300 COMBINING GRAVE ACCENT: ccc 230, quick-check Maybe under the
composing forms (so `yesC = false`), combines backward. -/
def props0300 : Props := ⟨2, 230, false, true, true, false, none, none⟩

/-- U+0323 COMBINING DOT BELOW: ccc 220, quick-check Maybe under the
composing forms, combines backward. -/
def props0323 : Props := ⟨2, 220, false, true, true, false, none, none⟩

/-- U+00E0 `à`: a starter with canonical decomposition `a` + U+0300; not
quick-check Yes under the decomposing forms. -/
def propsE0 : Props :=
  ⟨2, 0, true, false, false, false, some [0x61, 0x300], some [0x61, 0x300]⟩

/-- U+00F8 `ø`: an inert two-byte starter (no decomposition, quick-check
Yes everywhere). -/
def propsF8 : Props := ⟨2, 0, true, true, false, false, none, none⟩

/-- Decode the property record of the rune starting at the head of `l`
(a second byte defaulting to 0 marks truncated two-byte runes invalid). -/
def decodeProps (l : List Nat) : Props :=
  match l with
  | [] => inertProps
  | c :: rest =>
    if c < 0x80 then asciiProps c
    else if c = 0xCC then
      if rest.headD 0 = 0x80 then props0300
      else if rest.headD 0 = 0xA3 then props0323
      else inertProps
    else if c = 0xC3 then
      if rest.headD 0 = 0xA0 then propsE0
      else if rest.headD 0 = 0xB8 then propsF8
      else inertProps
    else inertProps

/-- The synthetic Property Oracle (`formInfo.info`). -/
def synthInfo : Info := fun src i => decodeProps (src.drop i)

/-- UTF-8 encoding of the synthetic oracle's runes. -/
def encodeRune (r : Nat) : List Nat :=
  if r < 0x80 then [r]
  else if r = 0x300 then [0xCC, 0x80]
  else if r = 0x323 then [0xCC, 0xA3]
  else if r = 0xE0 then [0xC3, 0xA0]
  else if r = 0xF8 then [0xC3, 0xB8]
  else []

/-- Properties of a rune given by code point (used for the components of a
decomposition): the decode of its encoding. -/
def runeProps (r : Nat) : Props := decodeProps (encodeRune r)

/-- The synthetic pairwise composition table: `a` + U+0300 → `à`. -/
def composePair (s m : Nat) : Option Nat :=
  if s = 0x61 ∧ m = 0x300 then some 0xE0 else none

/-! ## input methods -/

/-- Loop of `input.skipASCII`, structurally fueled so that it evaluates
by reduction (callers pass `e - i + 1`, which always suffices). -/
def skipASCIILoop (src : List Nat) (e : Nat) : Nat → Nat → Nat
  | 0, i => i
  | fuel + 1, i =>
    if i < e ∧ src.getD i 0xFF < 0x80 then skipASCIILoop src e fuel (i + 1)
    else i

/-- `input.skipASCII(p, max)`: advance `p` while the byte at `p` is ASCII
and `p < max`. -/
def skipASCII (src : List Nat) (i e : Nat) : Nat :=
  skipASCIILoop src e (e - i + 1) i

/-! ## quickSpan -/

/-- The loop of `formInfo.quickSpan`, translated line by line; `fuel`
bounds the iteration count (the callers pass `e + 1`, which always
suffices since the position strictly increases each iteration).  State:
current position `i`, `lastSegStart`, `lastCC`, combining count `nc`.
Returns the boundary and whether the scanned span was normalized. -/
def quickSpanLoop (composing : Bool) (info : Info) (src : List Nat)
    (e : Nat) (atEOF : Bool) :
    Nat → Nat → Nat → Nat → Nat → Nat × Bool
  | 0, _, lss, _, _ => (lss, false)
  | fuel + 1, i, lss, lastCC, nc =>
    if i < e then
      let j := skipASCII src i e
      if i ≠ j then
        quickSpanLoop composing info src e atEOF fuel j (j - 1) 0 0
      else
        let inf := info src i
        if inf.size = 0 then
          if atEOF then (e, true) else (lss, true)
        else if (if composing then ¬inf.yesC else ¬inf.yesD) then
          if composing then (lss, false) else (i, false)
        else if inf.ccc = 0 then
          quickSpanLoop composing info src e atEOF fuel (i + inf.size) i 0 0
        else if maxCombiningChars ≤ nc then
          quickSpanLoop composing info src e atEOF fuel (i + inf.size) i inf.ccc 1
        else if inf.ccc < lastCC then
          (lss, false)
        else
          quickSpanLoop composing info src e atEOF fuel (i + inf.size) lss inf.ccc (nc + 1)
    else
      if i = e then
        if atEOF then (e, true) else (lss, true)
      else if composing then (lss, false)
      else (i, false)

/-- `formInfo.quickSpan(src, i, end, atEOF)`. -/
def quickSpan (composing : Bool) (info : Info) (src : List Nat)
    (i e : Nat) (atEOF : Bool) : Nat × Bool :=
  quickSpanLoop composing info src e atEOF (e + 1) i i 0 0

/-- `Form.QuickSpan(b)`: the boundary for the whole input at EOF. -/
def QuickSpanF (f : Form) (b : List Nat) : Nat :=
  (quickSpan (formTable f).composing synthInfo b 0 b.length true).1

/-! ## Reorder buffer

The reorder-buffer implementation (`composition.go`) is not among the
repository sources here; it is modelled from the spec (§3 ReorderBuffer,
§4.5 Reorder Buffer / Composition).  The buffer is the ordered sequence of
`(rune, ccc)` entries of the current segment. -/

/-- Reorder-buffer entries: `(code point, ccc)` in canonical order. -/
abbrev RBuf := List (Nat × Nat)

/-- The number of combining-mark entries (`ccc ≠ 0`) held in the buffer. -/
def markCount (es : RBuf) : Nat := (es.filter (fun e => e.2 ≠ 0)).length

/-- Decode the code point of the rune at the head of `l` (0 if invalid). -/
def decodeRune (l : List Nat) : Nat :=
  match l with
  | [] => 0
  | c :: rest =>
    if c < 0x80 then c
    else if c = 0xCC then
      if rest.headD 0 = 0x80 then 0x300
      else if rest.headD 0 = 0xA3 then 0x323
      else 0
    else if c = 0xC3 then
      if rest.headD 0 = 0xA0 then 0xE0
      else if rest.headD 0 = 0xB8 then 0xF8
      else 0
    else 0

/-- The code point of the rune starting at byte offset `i` of `src`. -/
def srcRune (src : List Nat) (i : Nat) : Nat := decodeRune (src.drop i)

/-- `Properties.BoundaryBefore()`: a starter that does not combine
backward starts a new segment. -/
def boundaryBefore (p : Props) : Bool := p.ccc == 0 && !p.combBack

/-- `Properties.BoundaryAfter()`: an inert rune ends a segment for sure
(nothing following can interact with it). -/
def boundaryAfter (p : Props) : Bool :=
  p.ccc == 0 && !p.combFwd && !p.combBack && p.yesC && p.yesD
    && p.decompD.isNone && p.decompK.isNone

/-- The decomposition the active form uses, if any. -/
def decompOf (cfg : FormCfg) (p : Props) : Option (List Nat) :=
  if cfg.compat then p.decompK else p.decompD

/-- Modelled from the spec (§4.5): insert one entry keeping canonical
order — a combining mark is placed before the maximal suffix of entries
with strictly larger ccc (stable sort on ccc); a starter (ccc 0) is
appended at the end, anchoring the segment. -/
def insertOrdered (es : RBuf) (r c : Nat) : RBuf :=
  if c = 0 then es ++ [(r, c)]
  else
    let rev := es.reverse
    let moved := rev.takeWhile (fun e => c < e.2)
    let kept := rev.dropWhile (fun e => c < e.2)
    kept.reverse ++ [(r, c)] ++ moved.reverse

/-- The buffer entries contributed by one source rune: its full
decomposition under the active form when one exists, else itself. -/
def expansionOf (cfg : FormCfg) (r : Nat) (p : Props) : List Nat :=
  match decompOf cfg p with
  | some ds => ds
  | none => [r]

/-- Modelled from the spec (§4.5; `reorderBuffer.insert`): insert the
rune `r` with source properties `p`, expanding its decomposition and
placing each component in canonical order; `none` is the `iOverflow`
result — the rune does not fit and must start a new segment.  The
capacity is the spec's segment bound (§3: "when `count ==
MaxCombiningChars` further combining marks start a new segment";
glossary: a segment holds "up to `MaxCombiningChars` (30) marks", the
starter not counted) — the same bound, counted the same way, that the
in-source `quickSpan` enforces with its `nc` counter: an insert that
would push the number of combining-mark entries past
`maxCombiningChars` overflows. -/
def insertRune (cfg : FormCfg) (es : RBuf) (r : Nat) (p : Props) :
    Option RBuf :=
  let ex := expansionOf cfg r p
  if maxCombiningChars <
      markCount es + (ex.filter (fun d => (runeProps d).ccc ≠ 0)).length then
    none
  else some (ex.foldl (fun acc d => insertOrdered acc d (runeProps d).ccc) es)

/-- Modelled from the spec (§4.5; `reorderBuffer.compose`): walk the
combining marks after the leading starter; a mark that is not blocked
(no intervening mark of greater-or-equal ccc) and has a pairwise
composition with the starter is merged into it.  Returns the new starter
and the surviving marks; a second starter ends the composition scan. -/
def composeLoop (s : Nat) (acc : RBuf) (lastcc : Nat) (first : Bool) :
    RBuf → Nat × RBuf
  | [] => (s, acc.reverse)
  | (r, c) :: rest =>
    if c = 0 then (s, acc.reverse ++ (r, c) :: rest)
    else if first ∨ lastcc < c then
      match composePair s r with
      | some s2 => composeLoop s2 acc lastcc first rest
      | none => composeLoop s ((r, c) :: acc) c false rest
    else composeLoop s ((r, c) :: acc) c false rest

/-- Modelled from the spec (§4.5): greedy recomposition of a buffer that
starts with a starter; any other buffer is left unchanged. -/
def compose (es : RBuf) : RBuf :=
  match es with
  | (s, 0) :: rest =>
    let sr := composeLoop s [] 0 true rest
    (sr.1, 0) :: sr.2
  | _ => es

/-- `reorderBuffer.flushCopy` / `appendFlush` payload: the bytes of the
buffer's runes in order. -/
def flushBytes (es : RBuf) : List Nat :=
  es.foldr (fun e acc => encodeRune e.1 ++ acc) []

/-! ## Form.transform (the streaming slow path) -/

/-- Loop of the two-argument `decomposeSegment` used by `Form.transform`
(modelled from the spec §3/§4.5, mirroring the in-source three-argument
`decomposeSegment`): extend the segment while the next rune decodes and
has no boundary before it; a rune that would overflow the buffer starts
a new segment.  `fuel` bounds iterations (callers pass `nsrc + 1`). -/
def decompSegLoop (cfg : FormCfg) (info : Info) (src : List Nat)
    (nsrc : Nat) : Nat → RBuf → Nat → Nat × RBuf
  | 0, es, sp => (sp, es)
  | fuel + 1, es, sp =>
    let p := info src sp
    match insertRune cfg es (srcRune src sp) p with
    | none => (sp, es)
    | some es2 =>
      let sp2 := sp + p.size
      if nsrc ≤ sp2 then (sp2, es2)
      else
        let p2 := info src sp2
        if p2.size = 0 then (sp2, es2)
        else if boundaryBefore p2 then (sp2, es2)
        else decompSegLoop cfg info src nsrc fuel es2 sp2

/-- The two-argument `decomposeSegment(rb, sp)` of the `Form.transform`
path (modelled from the spec; see `decompSegLoop`): scan one segment
starting at `sp` into a fresh buffer; as in the in-source three-argument
version, a start at an undecodable unit returns 0. -/
def decomposeSeg2 (cfg : FormCfg) (info : Info) (src : List Nat)
    (nsrc sp : Nat) : Nat × RBuf :=
  let p := info src sp
  if p.size = 0 then (0, [])
  else decompSegLoop cfg info src nsrc (nsrc + 1) [] sp

/-- Result of a `Transform` call: the written bytes (`dst[:nDst]`), the
consumed source count `nSrc`, and the error (`none` = nil). -/
structure TRes where
  out : List Nat
  nSrc : Nat
  err : Option TErr
deriving DecidableEq

/-- The loop of `Form.transform` (the slow path), translated line by
line; `dstLen` is the remaining destination capacity, `out` the bytes
written so far (`nDst = out.length`), `err` the carried named-return
error.  `fuel` bounds iterations (callers pass `src.length + 1`, which
suffices since each iteration consumes source). -/
def transformLoop (cfg : FormCfg) (info : Info) (src : List Nat)
    (dstLen : Nat) (atEOF : Bool) :
    Nat → Nat → List Nat → Option TErr → TRes
  | 0, nSrc, out, _ => ⟨out, nSrc, some .shortDst⟩
  | fuel + 1, nSrc, out, err =>
    let eb := decomposeSeg2 cfg info src src.length nSrc
    if eb.1 = src.length ∧ atEOF = false then ⟨out, nSrc, some .shortSrc⟩
    else
      let buf := if cfg.composing then compose eb.2 else eb.2
      if dstLen - out.length < buf.length * 4 then ⟨out, nSrc, some .shortDst⟩
      else
        let nSrc1 := eb.1
        let out1 := out ++ flushBytes buf
        let room := nSrc1 + (dstLen - out1.length)
        let capped := room < src.length
        let err1 := if capped then some TErr.shortDst else err
        let e2 := if capped then room else src.length
        let eof := if capped then false else atEOF
        let so := quickSpan cfg.composing info src nSrc1 e2 eof
        let ncopy := min (dstLen - out1.length) (so.1 - nSrc1)
        let out2 := out1 ++ (src.drop nSrc1).take ncopy
        let nSrc2 := nSrc1 + ncopy
        if so.2 then
          ⟨out2, nSrc2,
            if ncopy < src.length ∧ atEOF = false then some .shortSrc else err1⟩
        else transformLoop cfg info src dstLen atEOF fuel nSrc2 out2 err1

/-- `Form.transform(dst, src, atEOF)` (the slow path entry). -/
def transformSlow (cfg : FormCfg) (info : Info) (dstLen : Nat)
    (src : List Nat) (atEOF : Bool) : TRes :=
  transformLoop cfg info src dstLen atEOF (src.length + 1) 0 [] none

/-- `Form.Transform(dst, src, atEOF)`, translated line by line: cap the
checked source bytes at the destination capacity (pre-setting
`ErrShortDst` and clearing `atEOF`), quick-span the capped input, copy
the verified span, and fall through to `Form.transform` when the quick
span fails. -/
def TransformRun (cfg : FormCfg) (info : Info) (dstLen : Nat)
    (src : List Nat) (atEOF : Bool) : TRes :=
  let capped := dstLen < src.length
  let err0 : Option TErr := if capped then some .shortDst else none
  let eof := if capped then false else atEOF
  let b := if capped then src.take dstLen else src
  let io := quickSpan cfg.composing info b 0 b.length eof
  let out := b.take io.1
  if io.2 = false then
    let r := transformSlow cfg info (dstLen - io.1) (src.drop io.1) atEOF
    ⟨out ++ r.out, io.1 + r.nSrc, r.err⟩
  else
    ⟨out, io.1,
      if io.1 < src.length ∧ atEOF = false then some .shortSrc else err0⟩

/-- `Form.Transform` at one of the four forms, over the synthetic oracle. -/
def TransformF (f : Form) (dstLen : Nat) (src : List Nat) (atEOF : Bool) :
    TRes :=
  TransformRun (formTable f) synthInfo dstLen src atEOF

/-! ## The append path (`Form.Bytes` / `Form.String` / `Form.Append`) -/

/-- `src[i:e]` as a list. -/
def extract (src : List Nat) (i e : Nat) : List Nat :=
  (src.drop i).take (e - i)

/-- The reorder buffer together with its output accumulator (`rb.out`);
the flusher of every embedded entry point is `appendFlush`. -/
structure RBState where
  out : List Nat
  buf : RBuf
deriving DecidableEq

/-- Modelled from the spec (§4.5: "composing forms emit composed runes";
`reorderBuffer.doFlush` is not among the sources): compose the buffer
for composing forms, append its bytes to the output, and reset it.  The
`appendFlush` flusher never fails. -/
def doFlush (cfg : FormCfg) (st : RBState) : RBState :=
  let b := if cfg.composing then compose st.buf else st.buf
  ⟨st.out ++ flushBytes b, []⟩

/-- `decomposeSegment(rb, sp, atEOF)` — the in-source three-argument
version, specialized to `atEOF = true` as at every call site of the
append path (so the two `iShortSrc` returns are unreachable): scan one
segment into the buffer and flush it; a start at an undecodable unit
returns 0. -/
def decomposeSeg3 (cfg : FormCfg) (info : Info) (src : List Nat)
    (nsrc : Nat) (st : RBState) (sp : Nat) : Nat × RBState :=
  let p := info src sp
  if p.size = 0 then (0, st)
  else
    let r := decompSegLoop cfg info src nsrc (nsrc + 1) st.buf sp
    (r.1, doFlush cfg ⟨st.out, r.2⟩)

/-- `appendQuick(rb, i)`: copy the next verified-normalized span to the
output. -/
def appendQuick (cfg : FormCfg) (info : Info) (src : List Nat)
    (nsrc : Nat) (st : RBState) (i : Nat) : Nat × RBState :=
  if nsrc = i then (i, st)
  else
    let e := (quickSpan cfg.composing info src i nsrc true).1
    (e, ⟨st.out ++ extract src i e, st.buf⟩)

/-- The zero `Properties` value (`var info Properties` in Go). -/
def zeroProps : Props := ⟨0, 0, false, false, false, false, none, none⟩

/-- `utf8.RuneStart(b)`: not a continuation byte. -/
def runeStartByte (b : Nat) : Bool := !(0x80 ≤ b ∧ b < 0xC0)

/-- Helper of `lastRuneStart`: the largest index of a rune-start byte. -/
def lastRuneStartAux : List Nat → Option Nat → Nat → Option Nat
  | [], acc, _ => acc
  | b :: rest, acc, idx =>
    lastRuneStartAux rest (if runeStartByte b then some idx else acc) (idx + 1)

/-- `lastRuneStart(fd, buf)`: the properties and position of the last
rune of `buf`, or the zero properties and `none` (Go: -1). -/
def lastRuneStart (info : Info) (buf : List Nat) : Props × Option Nat :=
  match lastRuneStartAux buf none 0 with
  | none => (zeroProps, none)
  | some p => (info buf p, some p)

/-- `maxBackRunes`: how many runes `decomposeToLastBoundary` scans
backward (modelled; the constant is not among the sources). -/
def maxBackRunes : Nat := 3

/-- The backward-scan loop of `decomposeToLastBoundary`: collect the
properties of up to `maxBackRunes` runes of an open trailing segment,
front of the list being the earliest rune; returns the cut position. -/
def dtlbLoop (info : Info) (out : List Nat) :
    Nat → List Props → Props → Nat → Nat × List Props
  | 0, add, _, p => (p, add)
  | fuel + 1, add, inf, p =>
    if add.length < maxBackRunes ∧ boundaryBefore inf = false then
      match lastRuneStart info (out.take p) with
      | (_, none) => (p, add)
      | (inf2, some pos) =>
        if inf2.size = p - pos then
          dtlbLoop info out fuel (inf2 :: add) inf2 (p - inf2.size)
        else (p, add)
    else (p, add)

/-- The insertion phase of `decomposeToLastBoundary`: re-insert the cut
runes (earliest first) into the buffer; on overflow the buffer is
flushed (and, as in the source, the overflowing rune is dropped). -/
def dtlbInsert (cfg : FormCfg) : RBState → List Nat → List Props → RBState
  | st, _, [] => st
  | st, cp, inf :: rest =>
    let st2 :=
      match insertRune cfg st.buf (decodeRune cp) inf with
      | none => doFlush cfg st
      | some b2 => RBState.mk st.out b2
    dtlbInsert cfg st2 (cp.drop inf.size) rest

/-- `decomposeToLastBoundary(rb)`: find an open segment at the end of
the output and move it back into the buffer (forcing decomposition). -/
def decomposeToLastBoundary (cfg : FormCfg) (info : Info) (st : RBState) :
    RBState :=
  match lastRuneStart info st.out with
  | (_, none) => st
  | (inf, some i) =>
    if inf.size ≠ st.out.length - i then st
    else if boundaryAfter inf then st
    else
      let r := dtlbLoop info st.out maxBackRunes [inf] inf
        (st.out.length - inf.size)
      let cp := st.out.drop r.1
      dtlbInsert cfg ⟨st.out.take r.1, st.buf⟩ cp r.2

/-- `patchTail(rb)`: fix a trailing rune followed by illegal
continuation bytes; returns whether there were such bytes. -/
def patchTail (cfg : FormCfg) (info : Info) (st : RBState) :
    RBState × Bool :=
  match lastRuneStart info st.out with
  | (_, none) => (st, false)
  | (inf, some pos) =>
    if inf.size = 0 then (st, false)
    else
      let e := pos + inf.size
      let extra := st.out.length - e
      if 0 < extra then
        let x := st.out.drop e
        let st1 := decomposeToLastBoundary cfg info ⟨st.out.take e, st.buf⟩
        let st2 := doFlush cfg st1
        (⟨st2.out ++ x, st2.buf⟩, true)
      else (st, false)

/-- `input.skipNonStarter` (modelled; absent from the sources): skip
bytes that do not start a rune (`!utf8.RuneStart`, continuation bytes),
so that a rune split between the previous output and the new source is
glued back together — the reading under which its companions
`patchTail` ("illegal continuation bytes") and `decomposeToLastBoundary`
are coherent and the append tests of the package pass. -/
def skipNonStarter (src : List Nat) : Nat → Nat → Nat
  | 0, p => p
  | fuel + 1, p =>
    if p < src.length ∧ runeStartByte (src.getD p 0) = false then
      skipNonStarter src fuel (p + 1)
    else p

/-- The loop of `doAppendInner(rb, p)`: alternate segment decomposition
and quick spans until the source is exhausted.  `fuel` bounds
iterations (callers pass `(nsrc + 1) * (nsrc + 1)`, amply sufficient). -/
def doAppendInner (cfg : FormCfg) (info : Info) (src : List Nat)
    (nsrc : Nat) : Nat → RBState → Nat → List Nat
  | 0, st, _ => st.out
  | fuel + 1, st, p =>
    if p < nsrc then
      let r1 := decomposeSeg3 cfg info src nsrc st p
      let r2 := appendQuick cfg info src nsrc r1.2 r1.1
      doAppendInner cfg info src nsrc fuel r2.2 r2.1
    else st.out

/-- `doAppend(rb, out, p)`, translated line by line (with the merge
section's early return made explicit). -/
def doAppendGo (cfg : FormCfg) (info : Info) (src : List Nat)
    (nsrc : Nat) (out : List Nat) (p : Nat) : List Nat :=
  let st : RBState := ⟨out, []⟩
  let doMerge := 0 < out.length
  let q := skipNonStarter src (nsrc + 1) p
  let step1 : RBState × Bool × Nat :=
    if p < q then
      let st1 : RBState := ⟨st.out ++ extract src p q, st.buf⟩
      let pt := patchTail cfg info st1
      if pt.2 then (pt.1, false, q)
      else (decomposeToLastBoundary cfg info pt.1, doMerge, q)
    else (st, doMerge, p)
  let st := step1.1
  let doMerge := step1.2.1
  let p := step1.2.2
  let merged : Option (List Nat) × RBState :=
    if doMerge then
      let inf := if p < nsrc then info src p else zeroProps
      let st :=
        if p < nsrc ∧ p = 0 ∧ boundaryBefore inf = false then
          decomposeToLastBoundary cfg info st
        else st
      if inf.size = 0 ∨ boundaryBefore inf then
        let st := doFlush cfg st
        if inf.size = 0 then (some (st.out ++ extract src p nsrc), st)
        else (none, st)
      else (none, st)
    else (none, st)
  match merged.1 with
  | some r => r
  | none =>
    let st := merged.2
    let pq :=
      if st.buf.length = 0 then appendQuick cfg info src nsrc st p
      else (p, st)
    doAppendInner cfg info src nsrc ((nsrc + 1) * (nsrc + 1)) pq.2 pq.1

/-- The result of `Form.Bytes` with the taken branch recorded: `same`
is the `return b` path (the returned slice is the caller's own buffer),
`alloc` the freshly-allocated slow path. -/
inductive BRes where
  | same (b : List Nat)
  | alloc (out : List Nat)
deriving DecidableEq

/-- The value carried by a `BRes`. -/
def BRes.val : BRes → List Nat
  | .same b => b
  | .alloc out => out

/-- `Form.Bytes(b)` with the taken branch recorded. -/
def BytesR (f : Form) (b : List Nat) : BRes :=
  let cfg := formTable f
  let so := quickSpan cfg.composing synthInfo b 0 b.length true
  if so.2 then .same b
  else .alloc (doAppendGo cfg synthInfo b b.length (b.take so.1) so.1)

/-- `Form.Bytes(b)`: f(b). -/
def BytesF (f : Form) (b : List Nat) : List Nat := (BytesR f b).val

/-- `Form.String(s)` with the taken branch recorded (strings are byte
lists; the code of `String` mirrors `Bytes` over an `inputString`). -/
def StringR (f : Form) (s : List Nat) : BRes :=
  let cfg := formTable f
  let so := quickSpan cfg.composing synthInfo s 0 s.length true
  if so.2 then .same s
  else .alloc (doAppendGo cfg synthInfo s s.length (s.take so.1) so.1)

/-- `Form.String(s)`: f(s). -/
def StringF (f : Form) (s : List Nat) : List Nat := (StringR f s).val

/-- `Form.Append(out, src...)` = `f.doAppend(out, src, len(src))`. -/
def AppendF (f : Form) (out src : List Nat) : List Nat :=
  let cfg := formTable f
  if src.length = 0 then out
  else if out.length = 0 then
    let p := (quickSpan cfg.composing synthInfo src 0 src.length true).1
    let out1 := src.take p
    if p = src.length then out1
    else
      doAppendInner cfg synthInfo src src.length
        ((src.length + 1) * (src.length + 1)) ⟨out1, []⟩ p
  else doAppendGo cfg synthInfo src src.length out 0

/-! ## Retry driver

The caller protocol of the `Transform` doc comment: retry with more
destination room on `ErrShortDst` (`ErrShortSrc` cannot occur at EOF),
concatenating the written bytes of every call. -/

/-- Drive `Form.Transform` to completion on a fully available input
(`atEOF = true`), growing the destination capacity on `ErrShortDst` and
concatenating the outputs. -/
def driveGrow (f : Form) : Nat → Nat → List Nat → List Nat → List Nat
  | 0, _, acc, _ => acc
  | fuel + 1, dstLen, acc, rest =>
    let r := TransformF f dstLen rest true
    let acc2 := acc ++ r.out
    let rest2 := rest.drop r.nSrc
    match r.err with
    | none => acc2
    | some _ => driveGrow f fuel (dstLen + 8) acc2 rest2

/-! ## Stream adapter (`transform.Reader`) -/

/-- The error domain of the stream adapter: `io.EOF`, a genuine source
I/O error, the two recoverable transformer signals, the adapter's own
`errInconsistentNSrc`, and transformer-specific terminal errors. -/
inductive GErr where
  | eof
  | ioErr (k : Nat)
  | shortDst
  | shortSrc
  | inconsistentNSrc
  | codecErr (k : Nat)
deriving DecidableEq

/-- A transformer call result for the adapter. -/
structure RTRes where
  out : List Nat
  nSrc : Nat
  err : Option GErr
deriving DecidableEq

/-- An arbitrary conforming Transformer, as the adapter sees it:
destination capacity, pending source, `atEOF` — written bytes, consumed
count, error. -/
def Tr : Type := Nat → List Nat → Bool → RTRes

/-- The `transform.Reader` state: staged transformed bytes
(`dst[dst0:dst1]`), pending source bytes (`src[src0:src1]`), the carried
reader error `r.err`, and `r.transformComplete`. -/
structure RdState where
  dstStaged : List Nat
  srcPend : List Nat
  rerr : Option GErr
  complete : Bool
deriving DecidableEq

/-- The transform-call section of `Reader.Read` (the call to
`r.t.Transform` and the switch on its error), translated line by line.
Returns the new state and whether control falls through to the
read-more-source section (the recoverable `ErrShortSrc` case). -/
def readTransformStep (t : Tr) (dstCap srcCap : Nat) (st : RdState) :
    RdState × Bool :=
  let r := t dstCap st.srcPend (st.rerr = some .eof)
  let pend2 := st.srcPend.drop r.nSrc
  match r.err with
  | none =>
    let rerr2 :=
      if pend2.length ≠ 0 then some GErr.inconsistentNSrc else st.rerr
    (⟨r.out, pend2, rerr2, rerr2.isSome⟩, false)
  | some e =>
    if e = .shortDst ∧ r.out.length ≠ 0 then
      (⟨r.out, pend2, st.rerr, st.complete⟩, false)
    else if e = .shortSrc ∧ pend2.length ≠ srcCap ∧ st.rerr = none then
      (⟨r.out, pend2, st.rerr, st.complete⟩, true)
    else
      let rerr2 :=
        if st.rerr = none ∨ st.rerr = some .eof then some e else st.rerr
      (⟨r.out, pend2, rerr2, true⟩, false)

/-- `Reader.Read(p)`, with the byte source modelled as the list of its
successive read results; returns the `(n, err)` pair, the new state and
the remaining source results (`none` when the loop fuel runs out or the
source model is exhausted, which no reachable run does). -/
def readGo (t : Tr) (dstCap srcCap pCap : Nat) :
    Nat → RdState → List (List Nat × Option GErr) →
    Option ((Nat × Option GErr) × RdState × List (List Nat × Option GErr))
  | 0, _, _ => none
  | fuel + 1, st, srcResults =>
    if st.dstStaged.length ≠ 0 then
      let n := min pCap st.dstStaged.length
      let rest := st.dstStaged.drop n
      let st2 : RdState := ⟨rest, st.srcPend, st.rerr, st.complete⟩
      if rest.length = 0 ∧ st.complete then
        some ((n, st.rerr), st2, srcResults)
      else some ((n, none), st2, srcResults)
    else if st.complete then some ((0, st.rerr), st, srcResults)
    else if st.srcPend.length ≠ 0 ∨ st.rerr.isSome then
      let sb := readTransformStep t dstCap srcCap st
      if sb.2 then
        match srcResults with
        | [] => none
        | (bs, e) :: rest =>
          let st2 := sb.1
          readGo t dstCap srcCap pCap fuel
            ⟨st2.dstStaged, st2.srcPend ++ bs.take (srcCap - st2.srcPend.length),
              e, st2.complete⟩ rest
      else readGo t dstCap srcCap pCap fuel sb.1 srcResults
    else
      match srcResults with
      | [] => none
      | (bs, e) :: rest =>
        readGo t dstCap srcCap pCap fuel
          ⟨st.dstStaged, st.srcPend ++ bs.take (srcCap - st.srcPend.length),
            e, st.complete⟩ rest

/-- A well-formed Property Oracle never reports a rune size reaching past
the end of the input (spec §3: `size` is the byte length of the encoded
rune, §6: `consumed_size == 0` signals an incomplete unit). -/
def InfoWF (info : Info) : Prop :=
  ∀ src i, i + (info src i).size ≤ src.length ∨ (info src i).size = 0

/-! # Theorems -/

/-! ## Basic facts about the scanner -/

theorem skipASCIILoop_ge (src : List Nat) (e : Nat) :
    ∀ fuel i, i ≤ skipASCIILoop src e fuel i := by
  intro fuel
  induction fuel with
  | zero => intro i; simp [skipASCIILoop]
  | succ n ih =>
    intro i
    rw [skipASCIILoop]
    split
    · exact le_trans (Nat.le_succ i) (ih (i + 1))
    · exact le_refl i

theorem skipASCIILoop_le (src : List Nat) (e : Nat) :
    ∀ fuel i, i ≤ e → skipASCIILoop src e fuel i ≤ e := by
  intro fuel
  induction fuel with
  | zero => intro i h; simpa [skipASCIILoop] using h
  | succ n ih =>
    intro i h
    rw [skipASCIILoop]
    split
    · next hc => exact ih (i + 1) hc.1
    · exact h

theorem skipASCII_le (src : List Nat) (i e : Nat) (h : i ≤ e) :
    skipASCII src i e ≤ e :=
  skipASCIILoop_le src e _ i h

theorem skipASCII_ge (src : List Nat) (i e : Nat) : i ≤ skipASCII src i e :=
  skipASCIILoop_ge src e _ i

/-- With `atEOF = true`, a successful quick span always reports the full
requested bound `e` as the boundary. -/
theorem quickSpanLoop_ok_eof (composing : Bool) (info : Info)
    (src : List Nat) (e : Nat) :
    ∀ fuel i lss lcc nc p,
      quickSpanLoop composing info src e true fuel i lss lcc nc = p →
      p.2 = true → p.1 = e := by
  intro fuel
  induction fuel with
  | zero =>
    intro i lss lcc nc p hp hok
    rw [quickSpanLoop] at hp
    rw [← hp] at hok
    simp at hok
  | succ n ih =>
    intro i lss lcc nc p hp hok
    simp only [quickSpanLoop] at hp
    split_ifs at hp
    all_goals
      first
        | exact ih _ _ _ _ _ hp hok
        | (rw [← hp]; done)
        | (rw [← hp] at hok; simp at hok; done)
        | omega
        | simp_all

/-- A successful quick span never reports a boundary beyond the bound,
provided the running `lastSegStart` is within it. -/
theorem quickSpanLoop_ok_le (composing : Bool) (info : Info)
    (src : List Nat) (e : Nat) (atEOF : Bool) :
    ∀ fuel i lss lcc nc p, lss ≤ e →
      quickSpanLoop composing info src e atEOF fuel i lss lcc nc = p →
      p.2 = true → p.1 ≤ e := by
  intro fuel
  induction fuel with
  | zero =>
    intro i lss lcc nc p _ hp hok
    rw [quickSpanLoop] at hp
    rw [← hp] at hok
    simp at hok
  | succ n ih =>
    intro i lss lcc nc p hlss hp hok
    simp only [quickSpanLoop] at hp
    split_ifs at hp with h1 h2 h3 h4 h5 h6 h7 h8 h9
    all_goals
      first
        | (refine ih _ _ _ _ _ ?_ hp hok
           have := skipASCII_le src i e (le_of_lt h1)
           omega)
        | exact ih _ _ _ _ _ (le_of_lt h1) hp hok
        | exact ih _ _ _ _ _ hlss hp hok
        | (rw [← hp]; done)
        | (rw [← hp]; exact hlss)
        | (rw [← hp] at hok; simp at hok; done)
        | simp_all

/-- A successful quick span implies the start position was within the
bound. -/
theorem quickSpan_ok_start_le (composing : Bool) (info : Info)
    (src : List Nat) (i e : Nat) (atEOF : Bool)
    (h : (quickSpan composing info src i e atEOF).2 = true) : i ≤ e := by
  by_contra hgt
  push_neg at hgt
  unfold quickSpan at h
  rw [quickSpanLoop] at h
  rw [if_neg (by omega), if_neg (by omega)] at h
  split at h <;> simp at h

theorem quickSpan_ok_eof (composing : Bool) (info : Info) (src : List Nat)
    (i e : Nat) (h : (quickSpan composing info src i e true).2 = true) :
    (quickSpan composing info src i e true).1 = e :=
  quickSpanLoop_ok_eof composing info src e _ i i 0 0 _ rfl h

theorem quickSpan_ok_le (composing : Bool) (info : Info) (src : List Nat)
    (i e : Nat) (atEOF : Bool)
    (h : (quickSpan composing info src i e atEOF).2 = true) :
    (quickSpan composing info src i e atEOF).1 ≤ e :=
  quickSpanLoop_ok_le composing info src e atEOF _ i i 0 0 _
    (quickSpan_ok_start_le composing info src i e atEOF h) rfl h

/-- Arithmetic core of the successful-return case of the
`Form.transform` loop: a success return implies the full remaining
source was spanned and copied. -/
theorem transformLoop_ok_arith (composing : Bool) (info : Info)
    (src : List Nat) (atEOF : Bool) (eb1 L dstLen : Nat)
    (hok : (quickSpan composing info src eb1 src.length atEOF).2 = true)
    (hroom : ¬ eb1 + (dstLen - L) < src.length)
    (hcond : ¬ ((dstLen - L) ⊓
        ((quickSpan composing info src eb1 src.length atEOF).1 - eb1) <
          src.length ∧ atEOF = false)) :
    eb1 + (dstLen - L) ⊓
        ((quickSpan composing info src eb1 src.length atEOF).1 - eb1) =
      src.length := by
  have hstart := quickSpan_ok_start_le composing info src eb1 src.length atEOF hok
  have hle := quickSpan_ok_le composing info src eb1 src.length atEOF hok
  cases atEOF with
  | false =>
    simp only [and_true, not_lt] at hcond
    omega
  | true =>
    have heq := quickSpan_ok_eof composing info src eb1 src.length hok
    omega

/-- If the `Form.transform` loop returns a nil error, it has consumed
the source completely. -/
theorem transformLoop_ok_consumes (cfg : FormCfg) (info : Info)
    (src : List Nat) (dstLen : Nat) (atEOF : Bool) :
    ∀ fuel nSrc out err p,
      transformLoop cfg info src dstLen atEOF fuel nSrc out err = p →
      p.err = none → p.nSrc = src.length := by
  intro fuel
  induction fuel with
  | zero =>
    intro nSrc out err p hp herr
    rw [transformLoop] at hp
    rw [← hp] at herr
    simp at herr
  | succ n ih =>
    intro nSrc out err p hp herr
    simp only [transformLoop] at hp
    split_ifs at hp with h1 h2 h3 h4 h5 h6 h7
    all_goals first
      | exact ih _ _ _ _ hp herr
      | (rw [← hp] at herr; simp at herr; done)
      | (have hn := congrArg TRes.nSrc hp
         simp only at hn
         rw [← hn]
         exact transformLoop_ok_arith _ _ _ _ _ _ _
           (by assumption) (by assumption) (by assumption))

/-- With a well-formed oracle, a quick span over the whole input (the
bound being the input length) reports a boundary within the input, on
any outcome. -/
theorem quickSpanLoop_le_wf (composing : Bool) (info : Info)
    (hWF : InfoWF info) (src : List Nat) (atEOF : Bool) :
    ∀ fuel i lss lcc nc p, i ≤ src.length → lss ≤ src.length →
      quickSpanLoop composing info src src.length atEOF fuel i lss lcc nc = p →
      p.1 ≤ src.length := by
  intro fuel
  induction fuel with
  | zero =>
    intro i lss lcc nc p _ hlss hp
    rw [quickSpanLoop] at hp
    rw [← hp]
    exact hlss
  | succ n ih =>
    intro i lss lcc nc p hi hlss hp
    simp only [quickSpanLoop] at hp
    split_ifs at hp with h1 h2 h3 h4 h5 h6 h7 h8 h9
    all_goals first
      | (refine ih _ _ _ _ _ ?_ ?_ hp
         <;> (have hsa := skipASCII_le src i src.length (le_of_lt h1); omega))
      | (refine ih _ _ _ _ _ ?_ ?_ hp
         <;> (rcases hWF src i with hw | hw; omega; omega))
      | (rw [← hp]; exact le_refl src.length)
      | (rw [← hp]; exact hlss)
      | (rw [← hp]; exact hi)
      | (rw [← hp]; done)
      | simp_all

theorem quickSpan_le_wf (composing : Bool) (info : Info) (hWF : InfoWF info)
    (src : List Nat) (i : Nat) (atEOF : Bool) (hi : i ≤ src.length) :
    (quickSpan composing info src i src.length atEOF).1 ≤ src.length :=
  quickSpanLoop_le_wf composing info hWF src atEOF _ i i 0 0 _ hi hi rfl

/-- Specialization of `transformLoop_ok_consumes` to the
`Form.transform` entry point. -/
theorem transformSlow_ok_consumes (cfg : FormCfg) (info : Info)
    (dstLen : Nat) (src : List Nat) (atEOF : Bool)
    (h : (transformSlow cfg info dstLen src atEOF).err = none) :
    (transformSlow cfg info dstLen src atEOF).nSrc = src.length :=
  transformLoop_ok_consumes cfg info src dstLen atEOF _ _ _ _ _ rfl h

/-- Arithmetic core of the quick-path success return of
`Form.Transform`. -/
theorem transformRun_quick_arith (composing : Bool) (info : Info)
    (src : List Nat) (atEOF : Bool)
    (hok : ¬ (quickSpan composing info src 0 src.length atEOF).2 = false)
    (hc : ¬ ((quickSpan composing info src 0 src.length atEOF).1 < src.length
      ∧ atEOF = false)) :
    (quickSpan composing info src 0 src.length atEOF).1 = src.length := by
  rw [Bool.not_eq_false] at hok
  cases atEOF with
  | false =>
    have hle := quickSpan_ok_le composing info src 0 src.length false hok
    simp only [and_true, not_lt] at hc
    omega
  | true => exact quickSpan_ok_eof composing info src 0 src.length hok

/-- If `Form.Transform` returns a nil error, it has consumed the source
completely (for any well-formed oracle). -/
theorem transformRun_ok_consumes (cfg : FormCfg) (info : Info)
    (hWF : InfoWF info) (dstLen : Nat) (src : List Nat) (atEOF : Bool)
    (h : (TransformRun cfg info dstLen src atEOF).err = none) :
    (TransformRun cfg info dstLen src atEOF).nSrc = src.length := by
  have hmain : ∀ p, TransformRun cfg info dstLen src atEOF = p →
      p.err = none → p.nSrc = src.length := by
    intro p hp herr
    simp only [TransformRun] at hp
    split_ifs at hp with h1 h2 h3 h4 h5 h6
    all_goals first
      | (have he := congrArg TRes.err hp
         simp only at he
         rw [← he] at herr
         simp at herr
         done)
      | (have hn := congrArg TRes.nSrc hp
         simp only at hn
         rw [← hn]
         exact transformRun_quick_arith _ _ _ _ (by assumption) (by assumption))
      | (have hn := congrArg TRes.nSrc hp
         have he := congrArg TRes.err hp
         simp only at hn he
         rw [← hn]
         rw [← he] at herr
         have hr := transformSlow_ok_consumes cfg info _ _ atEOF herr
         rw [List.length_drop] at hr
         have hq1 := quickSpan_le_wf cfg.composing info hWF
           (List.take dstLen src) 0 false (Nat.zero_le _)
         have hq2 := quickSpan_le_wf cfg.composing info hWF src 0 atEOF
           (Nat.zero_le _)
         have hlen : (List.take dstLen src).length = min dstLen src.length := by
           simp
         omega)
  exact hmain _ rfl h

/-- The synthetic oracle never reports a size reaching past the input. -/
theorem decodeProps_size_le (l : List Nat) : (decodeProps l).size ≤ l.length := by
  rcases l with _ | ⟨c, rest⟩
  · decide
  · rcases rest with _ | ⟨d, rest2⟩
    · simp only [decodeProps, List.headD_nil]
      split_ifs <;>
        simp_all [asciiProps, inertProps, props0300, props0323, propsE0,
          propsF8] <;> omega
    · simp only [decodeProps, List.headD_cons]
      split_ifs <;>
        simp_all [asciiProps, inertProps, props0300, props0323, propsE0,
          propsF8] <;> omega

theorem synthInfo_wf : InfoWF synthInfo := by
  intro src i
  rcases le_or_lt i src.length with hle | hlt
  · left
    have h := decodeProps_size_le (src.drop i)
    rw [List.length_drop] at h
    simp only [synthInfo]
    omega
  · right
    simp only [synthInfo]
    rw [List.drop_eq_nil_of_le (le_of_lt hlt)]
    rfl

/-- **C2**: for every form, destination capacity, source and `atEOF`
flag, a nil error from `Form.Transform` implies the whole source was
consumed (`nSrc = len(src)`); equivalently, a success result with
`nSrc < len(src)` never occurs. -/
theorem claim2_nil_error_implies_full_consumption (f : Form) (dstLen : Nat)
    (src : List Nat) (atEOF : Bool)
    (h : (TransformF f dstLen src atEOF).err = none) :
    (TransformF f dstLen src atEOF).nSrc = src.length :=
  transformRun_ok_consumes (formTable f) synthInfo synthInfo_wf dstLen src
    atEOF h

/-- Witness for C2 at a concrete successful call. -/
theorem claim2_witness :
    (TransformF .NFC 4 [0x61, 0xCC, 0x80] true).err = none ∧
    (TransformF .NFC 4 [0x61, 0xCC, 0x80] true).nSrc =
      [0x61, 0xCC, 0x80].length :=
  ⟨by decide,
    claim2_nil_error_implies_full_consumption .NFC 4 [0x61, 0xCC, 0x80] true
      (by decide)⟩

/-- **C1** (code_bug): chunk invariance fails.  On the NFD input
`à ø ø ø` with an 8-byte destination at EOF, `Form.Transform` writes 8
bytes — ending in a partial rune — while reporting `nSrc = 0` with
`ErrShortDst`; the documented retry protocol (grow `dst`, call again)
therefore re-emits the already-written bytes, and the concatenated
driver output differs from the one-shot `F.Append(nil, x...)`. -/
theorem claim1_chunked_output_diverges_from_append :
    TransformF .NFD 8 [0xC3, 0xA0, 0xC3, 0xB8, 0xC3, 0xB8, 0xC3, 0xB8] true =
      ⟨[0x61, 0xCC, 0x80, 0xC3, 0xB8, 0xC3, 0xB8, 0xC3], 0, some .shortDst⟩ ∧
    AppendF .NFD [] [0xC3, 0xA0, 0xC3, 0xB8, 0xC3, 0xB8, 0xC3, 0xB8] =
      [0x61, 0xCC, 0x80, 0xC3, 0xB8, 0xC3, 0xB8, 0xC3, 0xB8] ∧
    driveGrow .NFD 20 8 [] [0xC3, 0xA0, 0xC3, 0xB8, 0xC3, 0xB8, 0xC3, 0xB8] ≠
      AppendF .NFD [] [0xC3, 0xA0, 0xC3, 0xB8, 0xC3, 0xB8, 0xC3, 0xB8] :=
  ⟨by decide, by decide, by decide⟩

/-- **C3** (counterexample): the claim states that normalizing the bytes
of `"a" + U+0300` under NFC with a 4-byte destination succeeds as
`("à", 2, 2, Ok)`; in fact all three source bytes are consumed
(`nSrc = 3`, as the contract `Ok → nSrc = len(src)` requires). -/
theorem claim3_counterexample :
    (TransformF .NFC 4 [0x61, 0xCC, 0x80] true).nSrc ≠ 2 := by decide

/-- **C3** (amended): `Form.Transform` never emits a partial rune
sequence for a segment: on `"a" + U+0300` under NFC at EOF, a 1-byte and
a 2-byte destination both yield `(0, 0, ShortDst)` with nothing
consumed, and a 4-byte destination succeeds with output `"à"` as
`("à", 2, 3, Ok)`. -/
theorem claim3_amended_segment_atomic_short_dst :
    TransformF .NFC 1 [0x61, 0xCC, 0x80] true = ⟨[], 0, some .shortDst⟩ ∧
    TransformF .NFC 2 [0x61, 0xCC, 0x80] true = ⟨[], 0, some .shortDst⟩ ∧
    TransformF .NFC 4 [0x61, 0xCC, 0x80] true = ⟨[0xC3, 0xA0], 3, none⟩ :=
  ⟨by decide, by decide, by decide⟩

/-- **C7**: bounded combining-mark runs.  In the quick-span scanner,
once the per-segment combining count has reached `maxCombiningChars`,
the next combining mark starts a forced new segment (`lastSegStart`
moves to it, the count restarts at 1) instead of being reordered into
the previous one; and transforming a starter followed by 31 combining
marks still produces output: NFC maps `a` + 31·U+0300 to `à` followed by
30·U+0300, consuming all 63 bytes with a nil error. -/
theorem claim7_forced_segment_after_max_marks :
    (∀ (composing : Bool) (info : Info) (src : List Nat)
        (e : Nat) (atEOF : Bool) (fuel i lss lcc nc : Nat),
      i < e → skipASCII src i e = i → (info src i).size ≠ 0 →
      (if composing then (info src i).yesC else (info src i).yesD) = true →
      (info src i).ccc ≠ 0 → maxCombiningChars ≤ nc →
      quickSpanLoop composing info src e atEOF (fuel + 1) i lss lcc nc =
        quickSpanLoop composing info src e atEOF fuel
          (i + (info src i).size) i (info src i).ccc 1) ∧
    TransformF .NFC 200 (0x61 :: (List.replicate 31 [0xCC, 0x80]).flatten) true =
      ⟨0xC3 :: 0xA0 :: (List.replicate 30 [0xCC, 0x80]).flatten, 63, none⟩ := by
  constructor
  · intro composing info src e atEOF fuel i lss lcc nc hie hskip hsz hyes hccc hnc
    simp only [quickSpanLoop, hskip, if_pos hie]
    rw [if_neg (by simp)]
    rw [if_neg (by simpa using hsz)]
    rw [if_neg ?_, if_neg (by simpa using hccc), if_pos hnc]
    cases composing <;> simp_all
  · decide

/-- Witness for C7: the forced-segment step at a concrete state — the
31st combining mark of `a` + 31·U+0300 under NFC (position 61, count
already 30) starts a new segment at itself. -/
theorem claim7_witness :
    quickSpanLoop false synthInfo
        (0x61 :: (List.replicate 31 [0xCC, 0x80]).flatten) 63 true
        (5 + 1) 61 41 230 30 =
      quickSpanLoop false synthInfo
        (0x61 :: (List.replicate 31 [0xCC, 0x80]).flatten) 63 true
        5 (61 + (synthInfo (0x61 :: (List.replicate 31 [0xCC, 0x80]).flatten) 61).size)
        61 (synthInfo (0x61 :: (List.replicate 31 [0xCC, 0x80]).flatten) 61).ccc 1 :=
  claim7_forced_segment_after_max_marks.1 false synthInfo
    (0x61 :: (List.replicate 31 [0xCC, 0x80]).flatten) 63 true 5 61 41 230 30
    (by decide) (by decide) (by decide) (by decide) (by decide) (by decide)

/-- **C8**: error precedence in the stream adapter.  When the
transformer returns a terminal error `e` (not a recoverable
short-buffer case), `Reader.Read` stores the transformer's error only
if the pending source error is nil or end-of-input; a genuine source
I/O error is always the one kept — and a completed reader with no
staged bytes reports exactly the stored error to the caller. -/
theorem claim8_reader_error_precedence (t : Tr) (dstCap srcCap : Nat)
    (st : RdState) (e : GErr)
    (he : (t dstCap st.srcPend (decide (st.rerr = some .eof))).err = some e)
    (hnd : ¬(e = .shortDst ∧
      (t dstCap st.srcPend (decide (st.rerr = some .eof))).out.length ≠ 0))
    (hns : ¬(e = .shortSrc ∧
      (st.srcPend.drop
        (t dstCap st.srcPend (decide (st.rerr = some .eof))).nSrc).length
          ≠ srcCap ∧
      st.rerr = none)) :
    (readTransformStep t dstCap srcCap st).1.rerr =
      (if st.rerr = none ∨ st.rerr = some .eof then some e else st.rerr) ∧
    (∀ k, st.rerr = some (.ioErr k) →
      (readTransformStep t dstCap srcCap st).1.rerr = some (.ioErr k)) ∧
    (readTransformStep t dstCap srcCap st).1.complete = true ∧
    (∀ (pCap fuel : Nat) (st2 : RdState)
        (res : List (List Nat × Option GErr)),
      st2.dstStaged = [] → st2.complete = true →
      readGo t dstCap srcCap pCap (fuel + 1) st2 res =
        some ((0, st2.rerr), st2, res)) := by
  have hstep : readTransformStep t dstCap srcCap st =
      (⟨(t dstCap st.srcPend (decide (st.rerr = some .eof))).out,
        st.srcPend.drop
          (t dstCap st.srcPend (decide (st.rerr = some .eof))).nSrc,
        if st.rerr = none ∨ st.rerr = some .eof then some e else st.rerr,
        true⟩, false) := by
    simp only [readTransformStep]
    rw [he]
    simp only
    rw [if_neg hnd, if_neg hns]
  refine ⟨?_, ?_, ?_, ?_⟩
  · rw [hstep]
  · intro k hk
    rw [hstep]
    simp only
    rw [if_neg (by simp [hk])]
    exact hk
  · rw [hstep]
  · intro pCap fuel st2 res hd hc
    simp only [readGo, hd, hc]
    simp

/-- Witness for C8: with a transformer failing with a codec error, a
pending genuine I/O error (code 7) is kept, while a pending
end-of-input lets the codec error through. -/
theorem claim8_witness :
    (readTransformStep (fun _ _ _ => ⟨[], 0, some (.codecErr 3)⟩) 16 16
        ⟨[], [0x61], some (.ioErr 7), false⟩).1.rerr = some (.ioErr 7) ∧
    (readTransformStep (fun _ _ _ => ⟨[], 0, some (.codecErr 3)⟩) 16 16
        ⟨[], [0x61], some .eof, false⟩).1.rerr = some (.codecErr 3) :=
  ⟨(claim8_reader_error_precedence (fun _ _ _ => ⟨[], 0, some (.codecErr 3)⟩)
      16 16 ⟨[], [0x61], some (.ioErr 7), false⟩ (.codecErr 3)
      (by decide) (by decide) (by decide)).2.1 7 rfl,
   by
    have h := (claim8_reader_error_precedence
      (fun _ _ _ => ⟨[], 0, some (.codecErr 3)⟩) 16 16
      ⟨[], [0x61], some .eof, false⟩ (.codecErr 3)
      (by decide) (by decide) (by decide)).1
    simpa using h⟩

/-- **C9**: `Form.Transform` does not guarantee maximal progress under a
short destination: NFC over the two ASCII bytes `"ab"` with a 1-byte
destination at EOF returns `(0, 0, ShortDst)` although the strict
prefix `"a"` is already normalized and would fit; with room for the
whole input it succeeds. -/
theorem claim9_short_dst_no_partial_progress :
    TransformF .NFC 1 [0x61, 0x62] true = ⟨[], 0, some .shortDst⟩ ∧
    BytesF .NFC [0x61] = [0x61] ∧
    TransformF .NFC 2 [0x61, 0x62] true = ⟨[0x61, 0x62], 2, none⟩ :=
  ⟨by decide, by decide, by decide⟩

/-- **C10**: when the quick-check span accepts the whole input
(`quickSpan` reports ok), `Form.Bytes` returns the input slice itself —
the `return b` branch, aliasing the caller's buffer, recorded as
`BRes.same` — and likewise `Form.String` returns `s` unchanged. -/
theorem claim10_bytes_string_return_input (f : Form) (b s : List Nat)
    (hb : (quickSpan (formTable f).composing synthInfo b 0 b.length true).2 = true)
    (hs : (quickSpan (formTable f).composing synthInfo s 0 s.length true).2 = true) :
    BytesR f b = .same b ∧ StringR f s = .same s := by
  constructor
  · simp only [BytesR, hb, if_pos]
  · simp only [StringR, hs, if_pos]

/-- Witness for C10: `"hello"` is quick-check normalized for NFC, so
`Bytes` and `String` return it unchanged via the aliasing branch. -/
theorem claim10_witness :
    BytesR .NFC [0x68, 0x65, 0x6C, 0x6C, 0x6F] =
        .same [0x68, 0x65, 0x6C, 0x6C, 0x6F] ∧
      StringR .NFC [0x71, 0x78] = .same [0x71, 0x78] :=
  claim10_bytes_string_return_input .NFC
    [0x68, 0x65, 0x6C, 0x6C, 0x6F] [0x71, 0x78] (by decide) (by decide)

theorem getD_take_eq (l : List Nat) (n p d : Nat) (h : p < n) :
    (l.take n).getD p d = l.getD p d := by
  simp [List.getD_eq_getElem?_getD, List.getElem?_take, h]

/-- Any quick-span outcome is at least the running `lastSegStart` or at
least the current position. -/
theorem quickSpanLoop_result_lb (composing : Bool) (info : Info)
    (src : List Nat) (e : Nat) (atEOF : Bool) :
    ∀ fuel i lss lcc nc p,
      quickSpanLoop composing info src e atEOF fuel i lss lcc nc = p →
      p.1 = lss ∨ i ≤ p.1 := by
  intro fuel
  induction fuel with
  | zero =>
    intro i lss lcc nc p hp
    rw [quickSpanLoop] at hp
    rw [← hp]
    left; rfl
  | succ n ih =>
    intro i lss lcc nc p hp
    simp only [quickSpanLoop] at hp
    split_ifs at hp with h1 h2 h3 h4 h5 h6 h7 h8 h9
    all_goals first
      | (rcases ih _ _ _ _ _ hp with h | h <;>
          first
            | (left; exact h)
            | (right; have := skipASCII_ge src i e; omega))
      | (rw [← hp]; left; rfl)
      | (rw [← hp]; right; simp; omega)
      | (rw [← hp]; right; simp)
      | simp_all

/-- The quick-span loop result does not depend on the fuel, as long as
the fuel exceeds the remaining distance and is positive. -/
theorem quickSpanLoop_fuel_irrel (composing : Bool) (info : Info)
    (src : List Nat) (e : Nat) (atEOF : Bool) :
    ∀ fuel1 fuel2 i lss lcc nc, e < i + fuel1 → 1 ≤ fuel1 →
      e < i + fuel2 → 1 ≤ fuel2 →
      quickSpanLoop composing info src e atEOF fuel1 i lss lcc nc =
        quickSpanLoop composing info src e atEOF fuel2 i lss lcc nc := by
  intro fuel1
  induction fuel1 with
  | zero => intro fuel2 i lss lcc nc _ h _ _; omega
  | succ n ih =>
    intro fuel2 i lss lcc nc he1 hf1 he2 hf2
    rcases fuel2 with _ | m
    · omega
    · simp only [quickSpanLoop]
      split_ifs with h1 h2 h3 h4 h5 h6 h7
      all_goals first
        | rfl
        | (apply ih <;> (have hsa := skipASCII_ge src i e; omega))

theorem skipASCIILoop_ascii (src : List Nat) (e : Nat) :
    ∀ fuel i p, i ≤ p → p < skipASCIILoop src e fuel i →
      p < e ∧ src.getD p 0xFF < 0x80 := by
  intro fuel
  induction fuel with
  | zero =>
    intro i p h1 h2
    rw [skipASCIILoop] at h2
    omega
  | succ n ih =>
    intro i p h1 h2
    rw [skipASCIILoop] at h2
    by_cases hc : i < e ∧ src.getD i 0xFF < 0x80
    · rw [if_pos hc] at h2
      rcases Nat.eq_or_lt_of_le h1 with rfl | hlt
      · exact hc
      · exact ih (i + 1) p hlt h2
    · rw [if_neg hc] at h2
      omega

theorem skipASCIILoop_stop (src : List Nat) (e : Nat) :
    ∀ fuel i, e ≤ i + fuel → i ≤ e →
      skipASCIILoop src e fuel i = e ∨
        ¬ src.getD (skipASCIILoop src e fuel i) 0xFF < 0x80 := by
  intro fuel
  induction fuel with
  | zero =>
    intro i h1 h2
    rw [skipASCIILoop]
    left; omega
  | succ n ih =>
    intro i h1 h2
    rw [skipASCIILoop]
    by_cases hc : i < e ∧ src.getD i 0xFF < 0x80
    · rw [if_pos hc]
      exact ih (i + 1) (by omega) hc.1
    · rw [if_neg hc]
      rcases Nat.lt_or_ge i e with h | h
      · right
        intro ha
        exact hc ⟨h, ha⟩
      · left; omega

theorem skipASCIILoop_eq (src : List Nat) (e : Nat) :
    ∀ fuel i j, i ≤ j → j ≤ e → j ≤ i + fuel →
      (∀ p, i ≤ p → p < j → src.getD p 0xFF < 0x80) →
      (j = e ∨ ¬ src.getD j 0xFF < 0x80) →
      skipASCIILoop src e fuel i = j := by
  intro fuel
  induction fuel with
  | zero =>
    intro i j h1 h2 h3 _ _
    rw [skipASCIILoop]
    omega
  | succ n ih =>
    intro i j h1 h2 h3 hall hstop
    rcases Nat.eq_or_lt_of_le h1 with rfl | hlt
    · rw [skipASCIILoop]
      rw [if_neg ?_]
      rintro ⟨hie, hascii⟩
      rcases hstop with h | h
      · omega
      · exact h hascii
    · rw [skipASCIILoop]
      rw [if_pos ⟨by omega, hall i (le_refl i) hlt⟩]
      exact ih (i + 1) j hlt h2 (by omega)
        (fun p hp1 hp2 => hall p (by omega) hp2) hstop

theorem skipASCII_ascii (src : List Nat) (i e p : Nat) (h1 : i ≤ p)
    (h2 : p < skipASCII src i e) : p < e ∧ src.getD p 0xFF < 0x80 :=
  skipASCIILoop_ascii src e _ i p h1 h2

theorem skipASCII_stop (src : List Nat) (i e : Nat) (h : i ≤ e) :
    skipASCII src i e = e ∨ ¬ src.getD (skipASCII src i e) 0xFF < 0x80 :=
  skipASCIILoop_stop src e _ i (by omega) h

theorem skipASCII_eq (src : List Nat) (i e j : Nat) (h1 : i ≤ j)
    (h2 : j ≤ e) (hall : ∀ p, i ≤ p → p < j → src.getD p 0xFF < 0x80)
    (hstop : j = e ∨ ¬ src.getD j 0xFF < 0x80) :
    skipASCII src i e = j :=
  skipASCIILoop_eq src e _ i j h1 h2 (by omega) hall hstop

/-- Truncating the input at `n` caps an ASCII skip at `n`. -/
theorem skipASCII_take (b : List Nat) (n i : Nat) (hin : i < n)
    (hnb : n ≤ b.length) :
    skipASCII (b.take n) i n = min (skipASCII b i b.length) n := by
  have hge := skipASCII_ge b i b.length
  rcases le_or_lt (skipASCII b i b.length) n with hle | hgt
  · rw [min_eq_left hle]
    apply skipASCII_eq _ _ _ _ hge hle
    · intro p hp1 hp2
      have h := skipASCII_ascii b i b.length p hp1 hp2
      rw [getD_take_eq _ _ _ _ (by omega)]
      exact h.2
    · rcases skipASCII_stop b i b.length (by omega) with h | h
      · left; omega
      · rcases Nat.eq_or_lt_of_le hle with he | hlt
        · left; exact he
        · right
          rw [getD_take_eq _ _ _ _ hlt]
          exact h
  · rw [min_eq_right (le_of_lt hgt)]
    apply skipASCII_eq _ _ _ _ (by omega) (le_refl n)
    · intro p hp1 hp2
      have h := skipASCII_ascii b i b.length p hp1 (by omega)
      rw [getD_take_eq _ _ _ _ hp2]
      exact h.2
    · left; rfl



/-- The synthetic decode only reads as many bytes as the reported size,
so truncation beyond the rune does not change it. -/
theorem decodeProps_take (l : List Nat) (k : Nat)
    (hk : (decodeProps l).size ≤ k) (hsz : (decodeProps l).size ≠ 0) :
    decodeProps (l.take k) = decodeProps l := by
  rcases l with _ | ⟨c, rest⟩
  · simp [decodeProps, inertProps] at hsz
  · rcases rest with _ | ⟨d, rest2⟩
    · rcases k with _ | k
      · omega
      · simp
    · rcases k with _ | k
      · omega
      · rcases k with _ | k
        · -- take 1 (c :: d :: rest2) = [c]
          simp only [decodeProps, List.headD_cons, List.take_succ_cons,
            List.take_zero] at *
          split_ifs at * <;>
            simp_all [asciiProps, inertProps, props0300, props0323, propsE0,
              propsF8]
        · show decodeProps (c :: d :: rest2.take k) =
            decodeProps (c :: d :: rest2)
          simp only [decodeProps, List.headD_cons]

theorem synthInfo_take (b : List Nat) (n i : Nat)
    (hsz : (synthInfo b i).size ≠ 0)
    (hle : i + (synthInfo b i).size ≤ n) :
    synthInfo (b.take n) i = synthInfo b i := by
  simp only [synthInfo] at *
  rw [List.drop_take]
  exact decodeProps_take (b.drop i) (n - i) (by omega) hsz



set_option maxHeartbeats 1000000

/-- Replay: when a full-input quick span at EOF fails at boundary `n`,
re-scanning just the prefix `b[0:n]` succeeds, reporting `n` itself:
the failing boundary is always a clean segment start, and the scan of
the prefix retraces the original scan up to it. -/
theorem quickSpanLoop_replay (composing : Bool) (b : List Nat) (n : Nat)
    (hnb : n ≤ b.length) :
    ∀ fuel i lss lcc nc, lss ≤ i → i ≤ n →
      b.length < i + fuel → 1 ≤ fuel →
      quickSpanLoop composing synthInfo b b.length true fuel i lss lcc nc =
        (n, false) →
      quickSpanLoop composing synthInfo (b.take n) n true fuel i lss lcc nc =
        (n, true) := by
  intro fuel
  induction fuel with
  | zero => intro i lss lcc nc _ _ _ hf _; omega
  | succ k ih =>
    intro i lss lcc nc hlssi hin hfe hf1 hp
    rcases Nat.eq_or_lt_of_le hin with rfl | hilt
    · -- i = n: the truncated scan accepts immediately
      rw [quickSpanLoop]
      simp
    · -- i < n ≤ len b
      simp only [quickSpanLoop] at hp ⊢
      rw [if_pos (show i < b.length by omega)] at hp
      rw [if_pos hilt]
      by_cases hj : i ≠ skipASCII b i b.length
      · -- ASCII-run step
        rw [if_pos hj] at hp
        have hge := skipASCII_ge b i b.length
        rcases quickSpanLoop_result_lb composing synthInfo b b.length true
            k _ _ _ _ _ hp with hres | hres
        · -- n = j - 1: the run crosses n; the truncated scan stops at n
          have hskt : skipASCII (b.take n) i n = n := by
            rw [skipASCII_take b n i hilt hnb]
            omega
          rw [hskt, if_pos (show i ≠ n by omega)]
          rcases k with _ | k2
          · omega
          · rw [quickSpanLoop]
            simp
        · -- j ≤ n: same step on the prefix
          have hskt : skipASCII (b.take n) i n = skipASCII b i b.length := by
            rw [skipASCII_take b n i hilt hnb]
            omega
          rw [hskt, if_pos hj]
          exact ih _ _ _ _ (by omega) hres (by omega) (by omega) hp
      · -- non-ASCII position
        rw [if_neg hj] at hp
        have hskt : skipASCII (b.take n) i n = i := by
          rw [skipASCII_take b n i hilt hnb]
          have := skipASCII_ge b i b.length
          omega
        rw [hskt, if_neg (show ¬ i ≠ i by simp)]
        by_cases hsz : (synthInfo b i).size = 0
        · rw [if_pos hsz] at hp
          simp at hp
        · rw [if_neg hsz] at hp
          by_cases hyes : (if composing = true then
              ¬(synthInfo b i).yesC = true else ¬(synthInfo b i).yesD = true)
          · rw [if_pos hyes] at hp
            split_ifs at hp <;> (injection hp with ha hb; omega)
          · rw [if_neg hyes] at hp
            by_cases hcc : (synthInfo b i).ccc = 0
            · rw [if_pos hcc] at hp
              have hstep : i + (synthInfo b i).size ≤ n := by
                rcases quickSpanLoop_result_lb composing synthInfo b b.length
                  true k _ _ _ _ _ hp with h | h <;> omega
              have hstab := synthInfo_take b n i hsz hstep
              rw [hstab, if_neg hsz, if_neg hyes, if_pos hcc]
              exact ih _ _ _ _ (by omega) hstep (by omega) (by omega) hp
            · rw [if_neg hcc] at hp
              by_cases hmax : maxCombiningChars ≤ nc
              · rw [if_pos hmax] at hp
                have hstep : i + (synthInfo b i).size ≤ n := by
                  rcases quickSpanLoop_result_lb composing synthInfo b b.length
                    true k _ _ _ _ _ hp with h | h <;> omega
                have hstab := synthInfo_take b n i hsz hstep
                rw [hstab, if_neg hsz, if_neg hyes, if_neg hcc, if_pos hmax]
                exact ih _ _ _ _ (by omega) hstep (by omega) (by omega) hp
              · rw [if_neg hmax] at hp
                by_cases hlast : (synthInfo b i).ccc < lcc
                · rw [if_pos hlast] at hp
                  injection hp with ha hb
                  omega
                · rw [if_neg hlast] at hp
                  have hstep : i + (synthInfo b i).size ≤ n := by
                    rcases quickSpanLoop_result_lb composing synthInfo b
                      b.length true k _ _ _ _ _ hp with h | h <;> omega
                  have hstab := synthInfo_take b n i hsz hstep
                  rw [hstab, if_neg hsz, if_neg hyes, if_neg hcc,
                    if_neg hmax, if_neg hlast]
                  exact ih _ _ _ _ (by omega) hstep (by omega) (by omega) hp



/-- C6: for every form `f` and byte sequence `b`, `quickSpan` (hence
`Form.QuickSpan`) returns a boundary `n` with `0 ≤ n ≤ len(b)` such that
the prefix `b[0:n]` is already normalized — `f(b[0:n]) = b[0:n]` — and,
when a rune with non-zero ccc smaller than the preceding combining
mark's ccc is met inside the current segment, the scan stops at the
segment start `lastSegStart` and reports the input as not normalized. -/
theorem claim6_quickspan_prefix_normalized (f : Form) (b : List Nat) :
    QuickSpanF f b ≤ b.length ∧
    BytesF f (b.take (QuickSpanF f b)) = b.take (QuickSpanF f b) ∧
    (∀ (composing : Bool) (info : Info) (src : List Nat)
        (e : Nat) (atEOF : Bool) (fuel i lss lcc nc : Nat),
      i < e → skipASCII src i e = i → (info src i).size ≠ 0 →
      (if composing then (info src i).yesC else (info src i).yesD) = true →
      (info src i).ccc ≠ 0 → nc < maxCombiningChars →
      (info src i).ccc < lcc →
      quickSpanLoop composing info src e atEOF (fuel + 1) i lss lcc nc =
        (lss, false)) := by
  have hn : QuickSpanF f b ≤ b.length :=
    quickSpan_le_wf (formTable f).composing synthInfo synthInfo_wf b 0 true
      (Nat.zero_le _)
  refine ⟨hn, ?_, ?_⟩
  · cases hok : (quickSpan (formTable f).composing synthInfo b 0 b.length true).2 with
    | true =>
      have heq := quickSpan_ok_eof (formTable f).composing synthInfo b 0
        b.length hok
      have hq : QuickSpanF f b = b.length := heq
      rw [hq, List.take_length]
      simp [BytesF, BytesR, BRes.val, hok]
    | false =>
      have hpair : quickSpan (formTable f).composing synthInfo b 0 b.length
          true = (QuickSpanF f b, false) := by
        unfold QuickSpanF
        rw [← hok]
      rw [quickSpan] at hpair
      have hrep := quickSpanLoop_replay (formTable f).composing b
        (QuickSpanF f b) hn (b.length + 1) 0 0 0 0 (le_refl 0)
        (Nat.zero_le _) (by omega) (by omega) hpair
      have h2 : quickSpan (formTable f).composing synthInfo
          (b.take (QuickSpanF f b)) 0 (QuickSpanF f b) true =
          (QuickSpanF f b, true) := by
        rw [quickSpan]
        rw [quickSpanLoop_fuel_irrel (formTable f).composing synthInfo
          (b.take (QuickSpanF f b)) (QuickSpanF f b) true
          (QuickSpanF f b + 1) (b.length + 1) 0 0 0 0
          (by omega) (by omega) (by omega) (by omega)]
        exact hrep
      have hlen : (b.take (QuickSpanF f b)).length = QuickSpanF f b := by
        rw [List.length_take]
        omega
      simp only [BytesF, BytesR, hlen, h2]
      rfl
  · intro composing info src e atEOF fuel i lss lcc nc hie hskip hsz hyes
      hccc hmax hlast
    simp only [quickSpanLoop, hskip, if_pos hie]
    rw [if_neg (by simp)]
    rw [if_neg (by simpa using hsz)]
    rw [if_neg ?_, if_neg (by simpa using hccc), if_neg (by omega),
      if_pos hlast]
    cases composing <;> simp_all

/-- C6 witness: the out-of-order branch of the claim instantiated on the
concrete scan of `"b" + U+0300 + U+0323` (ccc 230 followed by ccc 220),
which stops at the segment start 0 and reports a problem. -/
theorem claim6_witness :
    quickSpanLoop false synthInfo [0x62, 0xCC, 0x80, 0xCC, 0xA3] 5 true
      (2 + 1) 3 0 230 1 = (0, false) :=
  (claim6_quickspan_prefix_normalized .NFD [0x62, 0xCC, 0x80, 0xCC, 0xA3]).2.2
    false synthInfo [0x62, 0xCC, 0x80, 0xCC, 0xA3] 5 true 2 3 0 230 1
    (by decide) (by decide) (by decide) (by decide) (by decide) (by decide)
    (by decide)

end NormEmbed
